import Mathlib

/-!
# ExcaliDash: verification of the security/sanitization and auth modules

Shallow embedding of the two core server modules of the ExcaliDash repository:

* the string sanitizers and the drawing-document validator
  (`sanitizeHtml`, `sanitizeSvg`, `sanitizeText`, `sanitizeUrl`,
  `elementSchema`, `appStateSchema`, `sanitizeDrawingData`,
  `validateImportedDrawing`), and
* the credential/session manager and login rate limiter
  (`initializeAuth`, `verifyCredentials`, `createSession`, `getSession`,
  `loginRateLimit`).

Strings are modelled as `List Char`; the JavaScript regular-expression
replacement `s.replace(re, r)` with the `g` flag is modelled by a
left-to-right scan (`replaceAllG`) parameterized by a matcher that models
the concrete regex.  JavaScript numbers are modelled as rationals (the
claims under verification exercise no NaN/∞ behaviour).  JavaScript
runtime values are modelled by the inductive `JsVal`.
-/

set_option maxRecDepth 10000

namespace ExcaliDash

abbrev Chars := List Char

/-- ASCII lower-casing, matching the canonicalization the `i` regex flag
performs on the ASCII pattern letters used by the source regexes. -/
def lowerC (c : Char) : Char :=
  if 'A' ≤ c ∧ c ≤ 'Z' then Char.ofNat (c.toNat + 32) else c

/-- JavaScript `\s` (also the character class `String.prototype.trim` strips). -/
def isSpaceC (c : Char) : Bool :=
  c = ' ' ∨ c = '\t' ∨ c = '\n' ∨ c = '\r' ∨ c.toNat = 11 ∨ c.toNat = 12 ∨
  c.toNat = 0xA0 ∨ c.toNat = 0x1680 ∨ (0x2000 ≤ c.toNat ∧ c.toNat ≤ 0x200A) ∨
  c.toNat = 0x2028 ∨ c.toNat = 0x2029 ∨ c.toNat = 0x202F ∨ c.toNat = 0x205F ∨
  c.toNat = 0x3000 ∨ c.toNat = 0xFEFF

/-- JavaScript `\w`: `[A-Za-z0-9_]`. -/
def isWordC (c : Char) : Bool :=
  ('a' ≤ c ∧ c ≤ 'z') ∨ ('A' ≤ c ∧ c ≤ 'Z') ∨ ('0' ≤ c ∧ c ≤ '9') ∨ c = '_'

/-- The regex character class `["']`. -/
def isQuoteC (c : Char) : Bool := c = '"' ∨ c = '\''

/-- `startsCI pat l`: the (already lower-case) pattern `pat` matches the
beginning of `l` case-insensitively. -/
def startsCI : Chars → Chars → Bool
  | [], _ => true
  | _ :: _, [] => false
  | p :: ps, c :: cs => lowerC c = p && startsCI ps cs

/-- `containsCI pat l`: some position of `l` matches the (lower-case)
pattern case-insensitively. -/
def containsCI (p : Chars) : Chars → Bool
  | [] => startsCI p []
  | c :: cs => startsCI p (c :: cs) || containsCI p cs

/-- Length of the maximal run of `p`-characters at the head of the list
(the text a greedy `X*` regex run consumes). -/
def countWhile (p : Char → Bool) : Chars → Nat
  | [] => 0
  | c :: cs => if p c then countWhile p cs + 1 else 0

/-- `String.prototype.trim`: strip whitespace from both ends. -/
def trimJS (l : Chars) : Chars :=
  ((l.dropWhile (fun c => isSpaceC c)).reverse.dropWhile (fun c => isSpaceC c)).reverse

/-! ## The global-replace engine

JavaScript `s.replace(re, r)` with the `g` flag scans left to right; at
each position it attempts the (never-empty-matching) regex, replaces the
match and resumes after it.  `repGo` performs this scan with a fuel
argument (each step consumes at least one character, so `l.length` fuel
suffices); `replaceAllG` ties the knot. -/

def repGo (m : Chars → Option Nat) (r : Chars) : Nat → Chars → Chars
  | _, [] => []
  | 0, l => l
  | fuel + 1, c :: cs =>
    match m (c :: cs) with
    | some k => r ++ repGo m r fuel (cs.drop (k - 1))
    | none => c :: repGo m r fuel cs

def replaceAllG (m : Chars → Option Nat) (r : Chars) (l : Chars) : Chars :=
  repGo m r l.length l

/-! ## Matchers for the source's regexes

Each matcher takes the text starting at the current scan position and
returns the length of the (leftmost-greedy) regex match starting exactly
there, or `none`.  The regexes of `security.ts` contain no empty match
and, as analysed pattern by pattern, their backtracking behaviour is
deterministic, which the matchers mirror directly. -/

/-- The literal pattern of `/javascript:/gi`. -/
def jsPat : Chars := "javascript:".toList

/-- Matcher for `/javascript:/gi`. -/
def jsAt (l : Chars) : Option Nat :=
  if startsCI jsPat l then some jsPat.length else none

/-- Scan for the first case-insensitive occurrence of the closing tag
`close`; returns the length of the text through the end of that
occurrence.  This models the deterministic residue of the greedy group
`[^<]*(?:(?!CLOSE)<[^<]*)*CLOSE`: any text decomposes into `<`-separated
chunks, and the match ends at the first position where `CLOSE` fits. -/
def scanClose (close : Chars) : Chars → Option Nat
  | [] => none
  | c :: cs =>
    if startsCI close (c :: cs) then some close.length
    else (scanClose close cs).map (· + 1)

/-- Matcher for `/<TAG\b[^<]*(?:(?!<\/TAG>)<[^<]*)*<\/TAG>/gi`
(used with TAG ∈ {script, iframe, object, embed, style, foreignObject}).
`tag` is given lower-case. -/
def tagAt (tag : Chars) (l : Chars) : Option Nat :=
  match l with
  | c :: rest =>
    if c = '<' ∧ startsCI tag rest then
      -- \b: the character after the tag name must not be a word character
      -- (end of input is a boundary as well, but then no closing tag follows).
      if (rest.drop tag.length).head?.all (fun c' => !isWordC c') then
        match scanClose ('<' :: '/' :: (tag ++ ['>'])) (rest.drop tag.length) with
        | some n => some (1 + tag.length + n)
        | none => none
      else none
    else none
  | [] => none

/-- Matcher for `/<link\b[^>]*>/gi`. -/
def linkAt (l : Chars) : Option Nat :=
  match l with
  | c :: rest =>
    if c = '<' ∧ startsCI "link".toList rest then
      if (rest.drop 4).head?.all (fun c' => !isWordC c') then
        match (rest.drop 4).drop (countWhile (fun c' => c' ≠ '>') (rest.drop 4)) with
        | '>' :: _ => some (1 + 4 + countWhile (fun c' => c' ≠ '>') (rest.drop 4) + 1)
        | _ => none
      else none
    else none
  | [] => none

/-- Matcher for the inline-event-handler regex `/on\w+\s*=\s*["'][^"']*["']/gi`. -/
def handlerAt (l : Chars) : Option Nat :=
  match l with
  | c1 :: c2 :: rest =>
    if lowerC c1 = 'o' ∧ lowerC c2 = 'n' then
      if countWhile isWordC rest = 0 then none
      else
        match (rest.drop (countWhile isWordC rest)).drop
            (countWhile isSpaceC (rest.drop (countWhile isWordC rest))) with
        | e :: l3 =>
          if e = '=' then
            match l3.drop (countWhile isSpaceC l3) with
            | q :: l5 =>
              if isQuoteC q then
                match l5.drop (countWhile (fun c' => !isQuoteC c') l5) with
                | q2 :: _ =>
                  if isQuoteC q2 then
                    some (2 + countWhile isWordC rest +
                      countWhile isSpaceC (rest.drop (countWhile isWordC rest)) + 1 +
                      countWhile isSpaceC l3 + 1 +
                      countWhile (fun c' => !isQuoteC c') l5 + 1)
                  else none
                | [] => none
              else none
            | [] => none
          else none
        | [] => none
    else none
  | _ => none

/-- Matcher for `/\sNAME\s*=\s*["'][^"']*(?:javascript:)[^"']*["']/gi`
(used with NAME ∈ {href, xlink:href}).  The quoted value is the maximal
quote-free run; the regex matches iff that run contains `javascript:`
case-insensitively and is closed by a quote. -/
def attrAt (name : Chars) (l : Chars) : Option Nat :=
  match l with
  | s :: rest =>
    if isSpaceC s ∧ startsCI name rest then
      match (rest.drop name.length).drop (countWhile isSpaceC (rest.drop name.length)) with
      | e :: l3 =>
        if e = '=' then
          match l3.drop (countWhile isSpaceC l3) with
          | q :: l5 =>
            if isQuoteC q then
              if containsCI jsPat (l5.take (countWhile (fun c' => !isQuoteC c') l5)) then
                match l5.drop (countWhile (fun c' => !isQuoteC c') l5) with
                | q2 :: _ =>
                  if isQuoteC q2 then
                    some (1 + name.length + countWhile isSpaceC (rest.drop name.length) +
                      1 + countWhile isSpaceC l3 + 1 +
                      countWhile (fun c' => !isQuoteC c') l5 + 1)
                  else none
                | [] => none
              else none
            else none
          | [] => none
        else none
      | [] => none
    else none
  | [] => none

/-! ## The sanitizers (`security.ts`) -/

/-- `sanitizeHtml`, on character lists.  The eight `.replace` passes are
applied in source order, followed by `.trim()`. -/
def sanitizeHtmlL (l : Chars) : Chars :=
  trimJS <|
  replaceAllG (tagAt "style".toList) [] <|
  replaceAllG linkAt [] <|
  replaceAllG (tagAt "embed".toList) [] <|
  replaceAllG (tagAt "object".toList) [] <|
  replaceAllG (tagAt "iframe".toList) [] <|
  replaceAllG handlerAt [] <|
  replaceAllG jsAt [] <|
  replaceAllG (tagAt "script".toList) [] l

/-- `sanitizeSvg`, on character lists: script/`javascript:`/handler
stripping, `foreignObject` removal, then the `href`/`xlink:href`
neutralization rewrites, then `.trim()`. -/
def sanitizeSvgL (l : Chars) : Chars :=
  trimJS <|
  replaceAllG (attrAt "xlink:href".toList) " xlink:href=\"#\"".toList <|
  replaceAllG (attrAt "href".toList) " href=\"#\"".toList <|
  replaceAllG (tagAt "foreignobject".toList) [] <|
  replaceAllG handlerAt [] <|
  replaceAllG jsAt [] <|
  replaceAllG (tagAt "script".toList) [] l

/-- The control characters stripped by `sanitizeText`:
`[\x00-\x08\x0B\x0C\x0E-\x1F\x7F]`. -/
def isStrippedCtrl (c : Char) : Bool :=
  c.toNat ≤ 8 ∨ c.toNat = 11 ∨ c.toNat = 12 ∨
  (14 ≤ c.toNat ∧ c.toNat ≤ 31) ∨ c.toNat = 127

/-- `sanitizeText` on a character list: strip control characters,
truncate to `maxLength` (`String.prototype.slice(0, maxLength)`), then
`sanitizeHtml`. -/
def sanitizeTextL (l : Chars) (maxLength : Nat) : Chars :=
  sanitizeHtmlL ((l.filter (fun c => !isStrippedCtrl c)).take maxLength)

/-- `sanitizeUrl` on a string: trim, block the `javascript:`/`data:`/
`vbscript:` schemes (case-insensitively), then allow only
`http://`, `https://`, `mailto:` and `/`, `./`, `../` starts (the second
regex also carries the `i` flag). -/
def sanitizeUrlStr (s : String) : String :=
  let t := trimJS s.toList
  if startsCI "javascript:".toList t ∨ startsCI "data:".toList t ∨
      startsCI "vbscript:".toList t then ""
  else if startsCI "http://".toList t ∨ startsCI "https://".toList t ∨
      startsCI "mailto:".toList t ∨ startsCI "/".toList t ∨
      startsCI "./".toList t ∨ startsCI "../".toList t then t.asString
  else ""

/-- String-level `sanitizeHtml`. -/
def sanitizeHtmlStr (s : String) : String := (sanitizeHtmlL s.toList).asString

/-- String-level `sanitizeSvg`. -/
def sanitizeSvgStr (s : String) : String := (sanitizeSvgL s.toList).asString

/-- String-level `sanitizeText` (string input case). -/
def sanitizeTextStr (s : String) (maxLength : Nat) : String :=
  (sanitizeTextL s.toList maxLength).asString

/-! ## JavaScript runtime values -/

/-- JavaScript values, as far as the validated drawing documents need:
`undefined`, `null`, booleans, (finite) numbers, strings, arrays and
plain objects (ordered field lists; keys are unique in JS objects). -/
inductive JsVal where
  | undefined
  | jsNull
  | bool (b : Bool)
  | num (q : ℚ)
  | str (s : String)
  | arr (elems : List JsVal)
  | obj (fields : List (String × JsVal))

/-- `typeof`. -/
def jsTypeof : JsVal → String
  | .undefined => "undefined"
  | .jsNull => "object"
  | .bool _ => "boolean"
  | .num _ => "number"
  | .str _ => "string"
  | .arr _ => "object"
  | .obj _ => "object"

/-- JavaScript truthiness (no NaN in the model). -/
def jsTruthy : JsVal → Bool
  | .undefined => false
  | .jsNull => false
  | .bool b => b
  | .num q => decide (q ≠ 0)
  | .str s => decide (s ≠ "")
  | .arr _ => true
  | .obj _ => true

def JsVal.isUndefined : JsVal → Bool
  | .undefined => true
  | _ => false

def JsVal.isArr : JsVal → Bool
  | .arr _ => true
  | _ => false

def lookupF : List (String × JsVal) → String → JsVal
  | [], _ => .undefined
  | (k', v) :: rest, k => if k' = k then v else lookupF rest k

def hasKeyF : List (String × JsVal) → String → Bool
  | [], _ => false
  | (k', _) :: rest, k => k' = k || hasKeyF rest k

/-- Property access `v.k` (guarded by the callers' `typeof` checks, so
`null`/`undefined` access never occurs on the modelled paths; on
non-objects it yields `undefined` as in JS). -/
def getField : JsVal → String → JsVal
  | .obj fields, k => lookupF fields k
  | _, _ => .undefined

/-- `Array.isArray(v) ? v : []` length helper; only consulted after an
`isArr` check. -/
def arrLen : JsVal → Nat
  | .arr l => l.length
  | _ => 0

/-! ## The zod schema engine

Just enough of zod 3's object parsing to embed `elementSchema` and
`appStateSchema` faithfully: per-field parse/transform, output keys for
non-`undefined` results (or keys present in the input), and the
unknown-key policy — `strict` rejects, the default strips, and
`.catchall` validates unknown keys with its predicate and keeps them
(with `.catchall` present, zod never applies the `strict` rejection). -/

abbrev ZParser := JsVal → Except Unit JsVal

inductive ZPolicy where
  | strict
  | strip
  | catchall (pred : JsVal → Bool)

def parseFields (shape : List (String × ZParser)) (fields : List (String × JsVal)) :
    Except Unit (List (String × JsVal)) :=
  match shape with
  | [] => .ok []
  | (k, p) :: rest =>
    match p (lookupF fields k) with
    | .error e => .error e
    | .ok r =>
      match parseFields rest fields with
      | .error e => .error e
      | .ok tail =>
        if !r.isUndefined || hasKeyF fields k then .ok ((k, r) :: tail) else .ok tail

def extraFields (shape : List (String × ZParser)) (fields : List (String × JsVal)) :
    List (String × JsVal) :=
  fields.filter (fun kv => !(shape.map Prod.fst).contains kv.1)

def parseObj (shape : List (String × ZParser)) (pol : ZPolicy) : ZParser := fun v =>
  match v with
  | .obj fields =>
    match parseFields shape fields with
    | .error e => .error e
    | .ok parsed =>
      match pol with
      | .strict => if (extraFields shape fields).isEmpty then .ok (.obj parsed) else .error ()
      | .strip => .ok (.obj parsed)
      | .catchall pred =>
        if (extraFields shape fields).all (fun kv => pred kv.2) then
          .ok (.obj (parsed ++ extraFields shape fields))
        else .error ()
  | _ => .error ()

/-! Field combinators mirroring the zod types used by the schemas.
`z.number().finite()` checks are vacuous in the rational model. -/

def zAny : ZParser := fun v => .ok v

def zStr : ZParser := fun v =>
  match v with
  | .str _ => .ok v
  | _ => .error ()

def zStrLen (lo hi : Nat) : ZParser := fun v =>
  match v with
  | .str s => if lo ≤ s.length ∧ s.length ≤ hi then .ok v else .error ()
  | _ => .error ()

def zNum : ZParser := fun v =>
  match v with
  | .num _ => .ok v
  | _ => .error ()

def zNumRange (lo hi : ℚ) : ZParser := fun v =>
  match v with
  | .num q => if lo ≤ q ∧ q ≤ hi then .ok v else .error ()
  | _ => .error ()

def zBool : ZParser := fun v =>
  match v with
  | .bool _ => .ok v
  | _ => .error ()

def zEnum (opts : List String) : ZParser := fun v =>
  match v with
  | .str s => if opts.contains s then .ok v else .error ()
  | _ => .error ()

def zOpt (p : ZParser) : ZParser := fun v =>
  match v with
  | .undefined => .ok .undefined
  | _ => p v

def zArr (p : ZParser) : ZParser := fun v =>
  match v with
  | .arr l => do
    let l' ← l.mapM p
    .ok (.arr l')
  | _ => .error ()

/-- `z.record(z.string(), z.any())`: any plain object. -/
def zRecordAny : ZParser := fun v =>
  match v with
  | .obj _ => .ok v
  | _ => .error ()

/-- `z.record(z.string(), z.boolean())`: a plain object whose every
value must be a boolean (the keys of a JS object are always strings, so
the key schema is vacuous); the parsed record carries the same
key/value pairs. -/
def zRecordBool : ZParser := fun v =>
  match v with
  | .obj f =>
    if f.all (fun kv =>
        match kv.2 with
        | .bool _ => true
        | _ => false) then .ok v
    else .error ()
  | _ => .error ()

/-! ## The drawing schemas -/

/-- `sanitizeText` with its `unknown` input type: non-strings yield `""`. -/
def sanitizeTextJ (v : JsVal) (maxLength : Nat) : String :=
  match v with
  | .str s => sanitizeTextStr s maxLength
  | _ => ""

/-- `sanitizeUrl` with its `unknown` input type: non-strings yield `""`. -/
def sanitizeUrlJ (v : JsVal) : String :=
  match v with
  | .str s => sanitizeUrlStr s
  | _ => ""

/-- The double-precision value of `2 * Math.PI` (exact: `Math.PI` is
`884279719003555 / 2^48`, and doubling a double is exact). -/
def twoPiF : ℚ := 884279719003555 / 140737488355328

/-- `z.string().optional().transform(sanitizeUrl)`: absent/`undefined`
or string input, output always the sanitized string. -/
def zLink : ZParser := fun v => do
  let r ← zOpt zStr v
  .ok (.str (sanitizeUrlJ r))

/-- `z.string().optional().transform(val => sanitizeText(val, 5000))`. -/
def zText : ZParser := fun v => do
  let r ← zOpt zStr v
  .ok (.str (sanitizeTextJ r 5000))

/-- The shape of `elementSchema`, in source order. -/
def elementShape : List (String × ZParser) :=
  [("id", zStrLen 1 100),
   ("type", zEnum ["rectangle", "ellipse", "diamond", "arrow", "line", "text",
                   "image", "frame", "embed", "selection", "text-container"]),
   ("x", zNumRange (-100000) 100000),
   ("y", zNumRange (-100000) 100000),
   ("width", zNumRange 0 100000),
   ("height", zNumRange 0 100000),
   ("angle", zNumRange (-twoPiF) twoPiF),
   ("strokeColor", zOpt zStr),
   ("backgroundColor", zOpt zStr),
   ("fillStyle", zOpt (zEnum ["solid", "hachure", "cross-hatch", "dots"])),
   ("strokeWidth", zOpt (zNumRange 0 10)),
   ("strokeStyle", zOpt (zEnum ["solid", "dashed", "dotted"])),
   ("roundness", zOpt (parseObj
      [("type", zEnum ["round", "sharp"]), ("value", zNumRange 0 1)] .strip)),
   ("boundElements", zOpt (zArr (parseObj
      [("id", zStr), ("type", zStr)] .strip))),
   ("groupIds", zOpt (zArr zStr)),
   ("frameId", zOpt zStr),
   ("seed", zOpt zNum),
   ("version", zNumRange 0 100000),
   ("versionNonce", zNumRange 0 100000),
   ("isDeleted", zOpt zBool),
   ("opacity", zOpt (zNumRange 0 1)),
   ("link", zLink),
   ("locked", zOpt zBool),
   ("text", zText),
   ("fontSize", zOpt (zNumRange 1 200)),
   ("fontFamily", zOpt (zNumRange 1 5)),
   ("textAlign", zOpt (zEnum ["left", "center", "right"])),
   ("verticalAlign", zOpt (zEnum ["top", "middle", "bottom"])),
   ("customData", zOpt zRecordAny)]

/-- `elementSchema` (a `.strict()` object). -/
def parseElement : ZParser := parseObj elementShape .strict

/-- The declared keys of `appStateSchema`. -/
def appStateShape : List (String × ZParser) :=
  [("gridSize", zOpt (zNumRange 0 100)),
   ("gridStep", zOpt (zNumRange 1 100)),
   ("viewBackgroundColor", zOpt zStr),
   ("currentItemStrokeColor", zOpt zStr),
   ("currentItemBackgroundColor", zOpt zStr),
   ("currentItemFillStyle", zOpt (zEnum ["solid", "hachure", "cross-hatch", "dots"])),
   ("currentItemStrokeWidth", zOpt (zNumRange 0 10)),
   ("currentItemStrokeStyle", zOpt (zEnum ["solid", "dashed", "dotted"])),
   ("currentItemRoundness", zOpt (parseObj
      [("type", zEnum ["round", "sharp"]), ("value", zNumRange 0 1)] .strip)),
   ("currentItemFontSize", zOpt (zNumRange 1 200)),
   ("currentItemFontFamily", zOpt (zNumRange 1 5)),
   ("currentItemTextAlign", zOpt (zEnum ["left", "center", "right"])),
   ("currentItemVerticalAlign", zOpt (zEnum ["top", "middle", "bottom"])),
   ("scrollX", zOpt (zNumRange (-1000000) 1000000)),
   ("scrollY", zOpt (zNumRange (-1000000) 1000000)),
   ("zoom", zOpt (parseObj [("value", zNumRange (1/10) 10)] .strip)),
   ("selection", zOpt (zArr zStr)),
   ("selectedElementIds", zOpt zRecordBool),
   ("selectedGroupIds", zOpt zRecordBool),
   ("activeEmbeddable", zOpt (parseObj
      [("elementId", zStr), ("state", zStr)] .strip)),
   ("activeTool", zOpt (parseObj
      [("type", zStr), ("customType", zOpt zStr)] .strip)),
   ("cursorX", zOpt zNum),
   ("cursorY", zOpt zNum)]

/-- The `.catchall(z.any().refine(...))` predicate: for a string value
the refinement returns `sanitizeText(val, 1000)`, whose JS truthiness is
"non-empty"; any other value passes. -/
def appCatch : JsVal → Bool
  | .str s => decide (sanitizeTextStr s 1000 ≠ "")
  | _ => true

/-- `appStateSchema`: strict object whose unknown keys are governed by
the catchall refinement (which supersedes `strict` in zod). -/
def parseAppState : ZParser := parseObj appStateShape (.catchall appCatch)

/-! ## `sanitizeDrawingData` and `validateImportedDrawing` -/

mutual

/-- The deep string sanitization of `files` through
`JSON.parse(JSON.stringify(files, replacer))`: every string value is
routed through `sanitizeText(·, 10000)`; `undefined` members disappear
from objects and become `null` in arrays. -/
def deepSan : JsVal → JsVal
  | .str s => .str (sanitizeTextStr s 10000)
  | .arr l => .arr (deepSanArr l)
  | .obj f => .obj (deepSanObj f)
  | v => v

def deepSanArr : List JsVal → List JsVal
  | [] => []
  | v :: rest =>
    (match deepSan v with
     | .undefined => .jsNull
     | r => r) :: deepSanArr rest

def deepSanObj : List (String × JsVal) → List (String × JsVal)
  | [] => []
  | (k, v) :: rest =>
    match deepSan v with
    | .undefined => deepSanObj rest
    | r => (k, r) :: deepSanObj rest

end

/-- The record returned by `sanitizeDrawingData`. -/
structure SanitizedDoc where
  elements : List JsVal
  appState : JsVal
  files : JsVal
  preview : JsVal

/-- `sanitizeDrawingData`: parse `elements` against
`elementSchema.array()`, `appState` against `appStateSchema`, sanitize a
string `preview` through `sanitizeSvg`, deep-sanitize `files` when it is
a non-null object; any schema failure raises the one generic error. -/
def sanitizeDrawingData (d : JsVal) : Except Unit SanitizedDoc :=
  match (match getField d "elements" with
         | .arr l => l.mapM parseElement
         | _ => .error ()) with
  | .error e => .error e
  | .ok elems =>
    match parseAppState (getField d "appState") with
    | .error e => .error e
    | .ok app =>
      .ok ⟨elems, app,
        (match getField d "files" with
         | .obj f => deepSan (.obj f)
         | .arr l => deepSan (.arr l)
         | f => f),
        (match getField d "preview" with
         | .str s => JsVal.str (sanitizeSvgStr s)
         | p => p)⟩

/-- The body of `validateImportedDrawing`'s `try` block; `.error` models
a thrown exception. -/
def validateCore (d : JsVal) : Except Unit Bool :=
  if !jsTruthy d ∨ jsTypeof d ≠ "object" then .ok false
  else if !(getField d "elements").isArr then .ok false
  else if jsTypeof (getField d "appState") ≠ "object" then .ok false
  else if arrLen (getField d "elements") > 10000 then .error ()
  else
    match sanitizeDrawingData d with
    | .error e => .error e
    | .ok r =>
      if r.elements.length ≠ arrLen (getField d "elements") then .error ()
      else .ok true

/-- `validateImportedDrawing`: the `try`/`catch` converts any raised
error into `false`. -/
def validateImportedDrawing (d : JsVal) : Bool :=
  match validateCore d with
  | .ok b => b
  | .error _ => false

/-! ## Credential & session manager (`auth.ts`)

Times are wall-clock milliseconds (`Date.now()`), modelled as `Nat`.
`bcrypt.hash`/`bcrypt.compare` are cryptographic primitives and are
modelled as parameters (`hashFn`, `cmp`).  Usernames are compared as
byte strings; bytes are modelled as `Nat` code units (the source writes
UTF-8 into the buffers; the model, like the deployment's ASCII
credentials, uses one unit per character). -/

def SESSION_EXPIRY_MS : Nat := 24 * 60 * 60 * 1000

def BCRYPT_ROUNDS : Nat := 12

def LOGIN_RATE_LIMIT_WINDOW : Nat := 15 * 60 * 1000

def LOGIN_MAX_ATTEMPTS : Nat := 5

/-- `Buffer.alloc(n)` (zero-filled) followed by `buf.write(s)`: the
first `min n |s|` units hold the string's code units (UTF-8 in the
source; the model stores the code points, which coincide for the ASCII
credentials the deployment uses), the rest stay NUL. -/
def writeBuf (s : String) (n : Nat) : List Char :=
  s.data.take n ++ List.replicate (n - s.data.length) (Char.ofNat 0)

/-- Environment configuration consumed by `initializeAuth`
(`ADMIN_USERNAME`, `ADMIN_PASSWORD`; `none` = variable unset). -/
structure AuthConfig where
  adminUsername : Option String
  adminPassword : Option String

/-- `initializeAuth`: reject a missing/blank username or a missing/short
password, otherwise store the bcrypt hash of the password (the process
global `hashedPassword`, here the returned value). -/
def initializeAuth (hashFn : String → String) (cfg : AuthConfig) :
    Except String String :=
  match cfg.adminUsername with
  | none => .error "ADMIN_USERNAME environment variable is required"
  | some u =>
    if u = "" ∨ (trimJS u.toList).length = 0 then
      .error "ADMIN_USERNAME environment variable is required"
    else
      match cfg.adminPassword with
      | none => .error "ADMIN_PASSWORD environment variable is required (minimum 8 characters)"
      | some pw =>
        if pw = "" ∨ pw.length < 8 then
          .error "ADMIN_PASSWORD environment variable is required (minimum 8 characters)"
        else .ok (hashFn pw)

/-- `verifyCredentials`.  `hashedPassword` is the module state set by
`initializeAuth` (`none` before initialization), `adminUsername` the
environment value, `cmp` the `bcrypt.compare` oracle.  The returned
`Nat` counts the `bcrypt.compare` invocations the call performs, making
the unconditional password comparison observable in the embedding. -/
def verifyCredentials (cmp : String → String → Bool)
    (hashedPassword : Option String) (adminUsername : String)
    (username password : String) : Except String (Bool × Nat) :=
  match hashedPassword with
  | none => .error "Auth not initialized"
  | some h =>
    let maxLength := max (max username.length adminUsername.length) 256
    let userBuffer := writeBuf username maxLength
    let adminBuffer := writeBuf adminUsername maxLength
    -- crypto.timingSafeEqual on two equally-long buffers is byte-wise equality
    let usernameValid :=
      decide (userBuffer = adminBuffer) && decide (username.length = adminUsername.length)
    -- ALWAYS check password (even if username invalid): one bcrypt.compare call
    let passwordValid := cmp password h
    .ok (usernameValid && passwordValid, 1)

/-- A session record. -/
structure Session where
  id : String
  createdAt : Nat
  expiresAt : Nat
deriving DecidableEq

/-- The in-memory session table (`Map<string, Session>`), keyed by id. -/
abbrev SessionStore := List (String × Session)

def storeSet (st : SessionStore) (k : String) (v : Session) : SessionStore :=
  match st with
  | [] => [(k, v)]
  | (k', v') :: rest => if k' = k then (k, v) :: rest else (k', v') :: storeSet rest k v

def storeGet (st : SessionStore) (k : String) : Option Session :=
  match st with
  | [] => none
  | (k', v) :: rest => if k' = k then some v else storeGet rest k

def storeDelete (st : SessionStore) (k : String) : SessionStore :=
  st.filter (fun kv => kv.1 ≠ k)

/-- `createSession`: `tok` models the fresh `crypto.randomBytes(32)` hex
token, `now` the clock; inserts and returns the record. -/
def createSession (tok : String) (now : Nat) (st : SessionStore) :
    Session × SessionStore :=
  let session : Session := ⟨tok, now, now + SESSION_EXPIRY_MS⟩
  (session, storeSet st tok session)

/-- `getSession`: lookup, with lazy expiry (`now > expiresAt` deletes the
entry and reports absence). -/
def getSession (sessionId : String) (now : Nat) (st : SessionStore) :
    Option Session × SessionStore :=
  match storeGet st sessionId with
  | none => (none, st)
  | some session =>
    if now > session.expiresAt then (none, storeDelete st sessionId)
    else (some session, st)

/-- `destroySession`: unconditional removal. -/
def destroySession (sessionId : String) (st : SessionStore) : SessionStore :=
  storeDelete st sessionId

/-! ## Login rate limiter (`auth.ts`)

The `loginAttempts` map is keyed by client address and each request
touches only its own key, so the middleware is modelled as a step
function on one address's counter. -/

structure AttemptCounter where
  count : Nat
  resetTime : Nat
deriving DecidableEq

inductive RLResult where
  | allow
  | rateLimited (retryAfter : Nat)
deriving DecidableEq

/-- One pass of `loginRateLimit` for a given address: `now` is
`Date.now()`, `attempts` the address's current counter (`none` when the
map has no entry).  Returns the decision and the updated counter;
`Math.ceil((resetTime - now) / 1000)` on non-negative integer ms is
`(resetTime - now + 999) / 1000`. -/
def loginRateLimit (now : Nat) (attempts : Option AttemptCounter) :
    RLResult × Option AttemptCounter :=
  match attempts with
  | some a =>
    if now > a.resetTime then
      (.allow, some ⟨1, now + LOGIN_RATE_LIMIT_WINDOW⟩)
    else if a.count ≥ LOGIN_MAX_ATTEMPTS then
      (.rateLimited ((a.resetTime - now + 999) / 1000), some a)
    else
      (.allow, some ⟨a.count + 1, a.resetTime⟩)
  | none => (.allow, some ⟨1, now + LOGIN_RATE_LIMIT_WINDOW⟩)

/-! ## Support lemmas: the replacement engine -/

theorem repGo_nil (m : Chars → Option Nat) (r : Chars) (fuel : Nat) :
    repGo m r fuel [] = [] := by
  cases fuel <;> rfl

theorem repGo_zero (m : Chars → Option Nat) (r : Chars) (l : Chars) :
    repGo m r 0 l = l := by
  cases l <;> rfl

theorem repGo_cons (m : Chars → Option Nat) (r : Chars) (f : Nat) (c : Char) (cs : Chars) :
    repGo m r (f + 1) (c :: cs) =
      match m (c :: cs) with
      | some k => r ++ repGo m r f (cs.drop (k - 1))
      | none => c :: repGo m r f cs := rfl

theorem repGo_fuel_norm (m : Chars → Option Nat) (r : Chars) :
    ∀ fuel l, l.length ≤ fuel → repGo m r fuel l = replaceAllG m r l := by
  intro fuel
  induction fuel using Nat.strong_induction_on with
  | _ fuel ih =>
    intro l hl
    match l with
    | [] => rw [repGo_nil, replaceAllG]; rfl
    | c :: cs =>
      obtain ⟨f, rfl⟩ : ∃ f, fuel = f + 1 :=
        ⟨fuel - 1, by simp only [List.length_cons] at hl; omega⟩
      simp only [List.length_cons] at hl
      rw [replaceAllG, List.length_cons, repGo_cons, repGo_cons]
      cases hm : m (c :: cs) with
      | none =>
        have h1 : repGo m r f cs = replaceAllG m r cs := ih f (by omega) cs (by omega)
        have h2 : repGo m r cs.length cs = replaceAllG m r cs := by rw [replaceAllG]
        simp [h1, h2]
      | some k =>
        have hd : (cs.drop (k - 1)).length ≤ cs.length := by
          rw [List.length_drop]; omega
        have h1 : repGo m r f (cs.drop (k - 1)) = replaceAllG m r (cs.drop (k - 1)) :=
          ih f (by omega) _ (by omega)
        have h2 : repGo m r cs.length (cs.drop (k - 1)) = replaceAllG m r (cs.drop (k - 1)) :=
          ih cs.length (by omega) _ hd
        simp [h1, h2]

theorem repGo_id (m : Chars → Option Nat) (r : Chars) :
    ∀ l fuel, l.length ≤ fuel → (∀ k < l.length, m (l.drop k) = none) →
      repGo m r fuel l = l := by
  intro l
  induction l with
  | nil => intro fuel _ _; exact repGo_nil ..
  | cons c cs ih =>
    intro fuel hf h
    obtain ⟨f, rfl⟩ : ∃ f, fuel = f + 1 :=
      ⟨fuel - 1, by simp only [List.length_cons] at hf; omega⟩
    simp only [List.length_cons] at hf
    have h0 : m (c :: cs) = none := by simpa using h 0 (by simp)
    rw [repGo_cons, h0]
    show c :: repGo m r f cs = c :: cs
    congr 1
    exact ih f (by omega) (fun k hk => by simpa using h (k + 1) (by simpa using hk))

/-- If no match starts in the `u` region, the scan walks through it. -/
theorem repGo_skip (m : Chars → Option Nat) (r : Chars) :
    ∀ u rest fuel, (u ++ rest).length ≤ fuel →
      (∀ k < u.length, m ((u ++ rest).drop k) = none) →
      repGo m r fuel (u ++ rest) = u ++ repGo m r (fuel - u.length) rest := by
  intro u
  induction u with
  | nil => intro rest fuel _ _; simp
  | cons c cs ih =>
    intro rest fuel hf h
    obtain ⟨f, rfl⟩ : ∃ f, fuel = f + 1 :=
      ⟨fuel - 1, by simp only [List.cons_append, List.length_cons] at hf; omega⟩
    simp only [List.cons_append, List.length_cons, List.length_append] at hf ⊢
    have h0 : m (c :: (cs ++ rest)) = none := by simpa using h 0 (by simp)
    rw [repGo_cons, h0]
    show c :: repGo m r f (cs ++ rest) = c :: (cs ++ repGo m r (f + 1 - (cs.length + 1)) rest)
    have : f + 1 - (cs.length + 1) = f - cs.length := by omega
    rw [this]
    congr 1
    exact ih rest f (by simp; omega)
      (fun k hk => by simpa using h (k + 1) (by simpa using hk))

/-- A match of length `|p|` at the head of `p ++ v` consumes exactly `p`. -/
theorem repGo_head_match (m : Chars → Option Nat) (r p v : Chars) (fuel : Nat)
    (hp : p ≠ []) (hm : m (p ++ v) = some p.length)
    (hf : (p ++ v).length ≤ fuel) :
    repGo m r fuel (p ++ v) = r ++ repGo m r (fuel - 1) v := by
  match p, hp with
  | c :: p', _ =>
    obtain ⟨f, rfl⟩ : ∃ f, fuel = f + 1 :=
      ⟨fuel - 1, by simp only [List.cons_append, List.length_cons] at hf; omega⟩
    rw [List.cons_append, repGo_cons]
    rw [List.cons_append] at hm
    rw [hm]
    show r ++ repGo m r f ((p' ++ v).drop ((c :: p').length - 1)) = r ++ repGo m r (f + 1 - 1) v
    congr 1
    rw [List.length_cons, Nat.add_sub_cancel, Nat.add_sub_cancel]
    rw [show (p' ++ v).drop p'.length = v from List.drop_left p' v]

/-- The composite: one planted occurrence between clean regions is
replaced and nothing else changes. -/
theorem replaceAll_planted (m : Chars → Option Nat) (r u p v : Chars)
    (hp : p ≠ [])
    (hpre : ∀ k < u.length, m ((u ++ (p ++ v)).drop k) = none)
    (hm : m (p ++ v) = some p.length)
    (hv : ∀ k < v.length, m (v.drop k) = none) :
    replaceAllG m r (u ++ (p ++ v)) = u ++ (r ++ v) := by
  rw [replaceAllG, repGo_skip m r u (p ++ v) _ le_rfl hpre]
  congr 1
  have hge : (p ++ v).length ≤ (u ++ (p ++ v)).length - u.length := by
    simp [List.length_append]
  rw [repGo_head_match m r p v _ hp hm hge]
  congr 1
  have hge2 : v.length ≤ (u ++ (p ++ v)).length - u.length - 1 := by
    have : p.length ≥ 1 := by cases p with | nil => exact absurd rfl hp | cons a b => simp
    simp [List.length_append]; omega
  rw [repGo_fuel_norm m r _ v hge2, replaceAllG]
  exact repGo_id m r v v.length le_rfl hv

theorem replaceAllG_id (m : Chars → Option Nat) (r l : Chars)
    (h : ∀ k < l.length, m (l.drop k) = none) : replaceAllG m r l = l :=
  repGo_id m r l l.length le_rfl h

theorem repGo_length_le (m : Chars → Option Nat) :
    ∀ fuel l, (repGo m [] fuel l).length ≤ l.length := by
  intro fuel
  induction fuel with
  | zero => intro l; simp [repGo_zero]
  | succ f ih =>
    intro l
    cases l with
    | nil => simp [repGo_nil]
    | cons c cs =>
      rw [repGo_cons]
      cases m (c :: cs) with
      | none => simpa using Nat.add_le_add_right (ih cs) 1
      | some k =>
        simp only [List.nil_append, List.length_cons]
        calc (repGo m [] f (cs.drop (k - 1))).length
            ≤ (cs.drop (k - 1)).length := ih _
          _ ≤ cs.length := by rw [List.length_drop]; omega
          _ ≤ cs.length + 1 := by omega

theorem mem_repGo (m : Chars → Option Nat) :
    ∀ fuel l x, x ∈ repGo m [] fuel l → x ∈ l := by
  intro fuel
  induction fuel with
  | zero => intro l x; simp [repGo_zero]
  | succ f ih =>
    intro l x
    cases l with
    | nil => simp [repGo_nil]
    | cons c cs =>
      rw [repGo_cons]
      cases m (c :: cs) with
      | none =>
        intro hx
        rcases List.mem_cons.mp hx with h | h
        · exact h ▸ List.mem_cons_self ..
        · exact List.mem_cons_of_mem _ (ih cs x h)
      | some k =>
        intro hx
        simp only [List.nil_append] at hx
        exact List.mem_cons_of_mem _ (List.mem_of_mem_drop (ih _ x hx))

/-! ## Support lemmas: case-insensitive containment -/

theorem startsCI_nil_pat (l : Chars) : startsCI [] l = true := by
  cases l <;> rfl

theorem containsCI_nil_pat (l : Chars) : containsCI [] l = true := by
  cases l <;> simp [containsCI, startsCI_nil_pat]

theorem startsCI_append_of (p w b : Chars) (h : startsCI p w = true) :
    startsCI p (w ++ b) = true := by
  induction p generalizing w with
  | nil => exact startsCI_nil_pat _
  | cons x ps ih =>
    cases w with
    | nil => exact absurd h (by simp [startsCI])
    | cons c cs =>
      rw [startsCI] at h
      rw [List.cons_append, startsCI]
      simp only [Bool.and_eq_true] at h ⊢
      exact ⟨h.1, ih cs h.2⟩

theorem containsCI_append_left (p t b : Chars) (h : containsCI p t = true) :
    containsCI p (t ++ b) = true := by
  induction t with
  | nil =>
    have : p = [] := by
      cases p with
      | nil => rfl
      | cons x xs => rw [containsCI, startsCI] at h; exact absurd h (by simp)
    subst this; exact containsCI_nil_pat _
  | cons c cs ih =>
    rw [containsCI] at h
    rw [List.cons_append, containsCI]
    rcases Bool.or_eq_true _ _ |>.mp h with h1 | h2
    · rw [← List.cons_append, startsCI_append_of p (c :: cs) b h1]; simp
    · rw [ih h2]; simp

theorem containsCI_append_right (p a t : Chars) (h : containsCI p t = true) :
    containsCI p (a ++ t) = true := by
  induction a with
  | nil => simpa using h
  | cons c cs ih =>
    rw [List.cons_append, containsCI, ih]
    simp

theorem containsCI_of_part (p t s : Chars) (hinf : t <:+: s)
    (h : containsCI p t = true) : containsCI p s = true := by
  obtain ⟨a, b, rfl⟩ := hinf
  rw [List.append_assoc]
  exact containsCI_append_right p a _ (containsCI_append_left p t b h)

theorem startsCI_drop_eq_false (p : Chars) :
    ∀ l, containsCI p l = false → ∀ k, startsCI p (l.drop k) = false := by
  intro l
  induction l with
  | nil =>
    intro h k
    rw [List.drop_nil]
    rw [containsCI] at h
    exact h
  | cons c cs ih =>
    intro h k
    rw [containsCI, Bool.or_eq_false_iff] at h
    cases k with
    | zero => exact h.1
    | succ k => rw [List.drop_succ_cons]; exact ih h.2 k

/-! ## Support lemmas: matchers returning `none` on clean text -/

theorem jsAt_eq_none {l : Chars} (h : startsCI jsPat l = false) : jsAt l = none := by
  simp [jsAt, h]

theorem jsAt_drop_none {l : Chars} (h : containsCI jsPat l = false) (k : Nat) :
    jsAt (l.drop k) = none :=
  jsAt_eq_none (startsCI_drop_eq_false jsPat l h k)

theorem tagAt_none (tag : Chars) (l : Chars) (h : ∀ c ∈ l, c ≠ '<') :
    tagAt tag l = none := by
  cases l with
  | nil => rfl
  | cons c rest =>
    have : c ≠ '<' := h c (List.mem_cons_self ..)
    simp [tagAt, this]

theorem linkAt_none (l : Chars) (h : ∀ c ∈ l, c ≠ '<') : linkAt l = none := by
  cases l with
  | nil => rfl
  | cons c rest =>
    have : c ≠ '<' := h c (List.mem_cons_self ..)
    simp [linkAt, this]

theorem handlerAt_none (l : Chars) (h : ∀ c ∈ l, isQuoteC c = false) :
    handlerAt l = none := by
  match l with
  | [] => rfl
  | [c] => rfl
  | c1 :: c2 :: rest =>
    rw [handlerAt]
    split
    case isFalse => rfl
    case isTrue hon =>
      split
      case isTrue => rfl
      case isFalse hw =>
        split
        case h_2 => rfl
        case h_1 e l3 heq =>
          split
          case isFalse => rfl
          case isTrue he =>
            split
            case h_2 => rfl
            case h_1 q l5 heq2 =>
              have hq : q ∈ (c1 :: c2 :: rest : Chars) := by
                have h1 : q ∈ l3.drop (countWhile isSpaceC l3) := by
                  rw [heq2]; exact List.mem_cons_self ..
                have h2 : q ∈ l3 := List.mem_of_mem_drop h1
                have h3 : q ∈ e :: l3 := List.mem_cons_of_mem _ h2
                rw [← heq] at h3
                have h4 : q ∈ rest.drop (countWhile isWordC rest) :=
                  List.mem_of_mem_drop h3
                have h5 : q ∈ rest := List.mem_of_mem_drop h4
                exact List.mem_cons_of_mem _ (List.mem_cons_of_mem _ h5)
              rw [if_neg]
              simp [h q hq]

theorem attrAt_none (name : Chars) (l : Chars) (h : ∀ c ∈ l, isQuoteC c = false) :
    attrAt name l = none := by
  match l with
  | [] => rfl
  | s :: rest =>
    rw [attrAt]
    split
    case isFalse => rfl
    case isTrue hname =>
      split
      case h_2 => rfl
      case h_1 e l3 heq =>
        split
        case isFalse => rfl
        case isTrue he =>
          split
          case h_2 => rfl
          case h_1 q l5 heq2 =>
            have hq : q ∈ (s :: rest : Chars) := by
              have h1 : q ∈ l3.drop (countWhile isSpaceC l3) := by
                rw [heq2]; exact List.mem_cons_self ..
              have h2 : q ∈ l3 := List.mem_of_mem_drop h1
              have h3 : q ∈ e :: l3 := List.mem_cons_of_mem _ h2
              rw [← heq] at h3
              have h5 : q ∈ rest := List.mem_of_mem_drop (List.mem_of_mem_drop h3)
              exact List.mem_cons_of_mem _ h5
            rw [if_neg]
            simp [h q hq]

/-! ## Support lemmas: trim -/

theorem trimJS_part (l : Chars) : trimJS l <:+: l := by
  unfold trimJS
  set a := l.dropWhile (fun c => isSpaceC c) with ha
  have h1 : a <:+ l := List.dropWhile_suffix _
  set b := a.reverse.dropWhile (fun c => isSpaceC c) with hb
  have h2 : b <:+ a.reverse := List.dropWhile_suffix _
  have h3 : b.reverse <+: a := by
    rw [← List.reverse_suffix]
    simpa using h2
  exact (h3.isInfix).trans h1.isInfix

theorem mem_trimJS {l : Chars} {x : Char} (h : x ∈ trimJS l) : x ∈ l :=
  (trimJS_part l).sublist.subset h

theorem trimJS_length_le (l : Chars) : (trimJS l).length ≤ l.length :=
  (trimJS_part l).sublist.length_le

/-! ## Support: scanning a text for any match of a matcher -/

/-- `anyMatch m l`: the matcher `m` fires at some position of `l`
(i.e. the underlying regex has a match in `l`). -/
def anyMatch (m : Chars → Option Nat) : Chars → Bool
  | [] => (m []).isSome
  | c :: cs => (m (c :: cs)).isSome || anyMatch m cs

theorem anyMatch_eq_false (m : Chars → Option Nat) (l : Chars)
    (h : ∀ t, t <:+ l → m t = none) : anyMatch m l = false := by
  induction l with
  | nil => rw [anyMatch, h [] List.nil_suffix]; rfl
  | cons c cs ih =>
    rw [anyMatch, h (c :: cs) List.suffix_rfl]
    simp only [Option.isSome_none, Bool.false_or]
    exact ih (fun t ht => h t (ht.trans (List.suffix_cons c cs)))

theorem anyMatch_tagAt_false (tag l : Chars) (h : ∀ c ∈ l, c ≠ '<') :
    anyMatch (tagAt tag) l = false :=
  anyMatch_eq_false _ _ (fun t ht => tagAt_none tag t (fun c hc => h c (ht.subset hc)))

theorem anyMatch_handlerAt_false (l : Chars) (h : ∀ c ∈ l, isQuoteC c = false) :
    anyMatch handlerAt l = false :=
  anyMatch_eq_false _ _ (fun t ht => handlerAt_none t (fun c hc => h c (ht.subset hc)))

/-! ## Additional containment helpers -/

theorem containsCI_false_of_append_right {p a t : Chars}
    (h : containsCI p (a ++ t) = false) : containsCI p t = false := by
  cases ht : containsCI p t with
  | false => rfl
  | true => rw [containsCI_append_right p a t ht] at h; exact absurd h (by simp)

theorem jsAt_self_append (v : Chars) : jsAt (jsPat ++ v) = some jsPat.length := by
  rw [jsAt, if_pos]
  exact startsCI_append_of _ _ _ (by decide)

/-! ## Claim C1 -/

/-- C1, counterexample: the input `javajavascript:script:` contains a
`javascript:` URI, yet `sanitizeHtml` maps it to exactly `javascript:` —
the single global substitution splices the surrounding fragments into a
new occurrence, so the output still contains the pattern. -/
theorem c1_spliced_counterexample :
    containsCI jsPat "javajavascript:script:".toList = true ∧
    sanitizeHtmlL "javajavascript:script:".toList = "javascript:".toList ∧
    containsCI jsPat (sanitizeHtmlL "javajavascript:script:".toList) = true :=
  ⟨by decide, by decide, by decide⟩

/-- C1, amended: each `.replace` pass removes every occurrence of its
pattern present in its own input, so for splice-free inputs — here, a
single `javascript:` occurrence between markup-free contexts `u`, `v`
(no `<` and no quotes) such that no occurrence starts inside `u` and
`u ++ v` contains none — both `sanitizeHtml` and `sanitizeSvg` return
the trimmed `u ++ v`, which contains no `javascript:` URI, no script
block and no inline event-handler attribute.  (The unrestricted claim
fails: removal can splice a new occurrence, see the counterexample.) -/
theorem c1_sanitize_spliceFree (u v : Chars)
    (hu : ∀ c ∈ u, c ≠ '<' ∧ isQuoteC c = false)
    (hv : ∀ c ∈ v, c ≠ '<' ∧ isQuoteC c = false)
    (hnojs : containsCI jsPat (u ++ v) = false)
    (hpre : ∀ k < u.length, jsAt ((u ++ (jsPat ++ v)).drop k) = none) :
    sanitizeHtmlL (u ++ (jsPat ++ v)) = trimJS (u ++ v) ∧
    sanitizeSvgL (u ++ (jsPat ++ v)) = trimJS (u ++ v) ∧
    containsCI jsPat (sanitizeHtmlL (u ++ (jsPat ++ v))) = false ∧
    anyMatch (tagAt "script".toList) (sanitizeHtmlL (u ++ (jsPat ++ v))) = false ∧
    anyMatch handlerAt (sanitizeHtmlL (u ++ (jsPat ++ v))) = false := by
  have hjschars : ∀ c ∈ jsPat, c ≠ '<' ∧ isQuoteC c = false := by decide
  have hall : ∀ c ∈ u ++ (jsPat ++ v), c ≠ '<' ∧ isQuoteC c = false := by
    intro c hc
    rcases List.mem_append.mp hc with h | h
    · exact hu c h
    · rcases List.mem_append.mp h with h | h
      · exact hjschars c h
      · exact hv c h
  have huv : ∀ c ∈ u ++ v, c ≠ '<' ∧ isQuoteC c = false := by
    intro c hc
    rcases List.mem_append.mp hc with h | h
    · exact hu c h
    · exact hv c h
  have tagid : ∀ (tag l : Chars), (∀ c ∈ l, c ≠ '<') →
      replaceAllG (tagAt tag) [] l = l := fun tag l h =>
    replaceAllG_id _ _ _
      (fun k _ => tagAt_none tag _ (fun c hc => h c (List.mem_of_mem_drop hc)))
  have linkid : ∀ l : Chars, (∀ c ∈ l, c ≠ '<') → replaceAllG linkAt [] l = l :=
    fun l h => replaceAllG_id _ _ _
      (fun k _ => linkAt_none _ (fun c hc => h c (List.mem_of_mem_drop hc)))
  have handlerid : ∀ l : Chars, (∀ c ∈ l, isQuoteC c = false) →
      replaceAllG handlerAt [] l = l := fun l h =>
    replaceAllG_id _ _ _
      (fun k _ => handlerAt_none _ (fun c hc => h c (List.mem_of_mem_drop hc)))
  have attrid : ∀ (name r l : Chars), (∀ c ∈ l, isQuoteC c = false) →
      replaceAllG (attrAt name) r l = l := fun name r l h =>
    replaceAllG_id _ _ _
      (fun k _ => attrAt_none name _ (fun c hc => h c (List.mem_of_mem_drop hc)))
  have hvjs : containsCI jsPat v = false := by
    have h2 : containsCI jsPat (u ++ v) = false := hnojs
    have := containsCI_false_of_append_right (a := u) h2
    exact this
  have hjs : replaceAllG jsAt [] (u ++ (jsPat ++ v)) = u ++ v := by
    have := replaceAll_planted jsAt [] u jsPat v (by decide) hpre
      (jsAt_self_append v) (fun k _ => jsAt_drop_none hvjs k)
    simpa using this
  have escript : replaceAllG (tagAt "script".toList) [] (u ++ (jsPat ++ v)) =
      u ++ (jsPat ++ v) := tagid _ _ (fun c hc => (hall c hc).1)
  have ehandler : replaceAllG handlerAt [] (u ++ v) = u ++ v :=
    handlerid _ (fun c hc => (huv c hc).2)
  have hhtml : sanitizeHtmlL (u ++ (jsPat ++ v)) = trimJS (u ++ v) := by
    show trimJS
      (replaceAllG (tagAt "style".toList) []
        (replaceAllG linkAt []
          (replaceAllG (tagAt "embed".toList) []
            (replaceAllG (tagAt "object".toList) []
              (replaceAllG (tagAt "iframe".toList) []
                (replaceAllG handlerAt []
                  (replaceAllG jsAt []
                    (replaceAllG (tagAt "script".toList) [] (u ++ (jsPat ++ v)))))))))) =
      trimJS (u ++ v)
    rw [escript, hjs, ehandler,
      tagid "iframe".toList _ (fun c hc => (huv c hc).1),
      tagid "object".toList _ (fun c hc => (huv c hc).1),
      tagid "embed".toList _ (fun c hc => (huv c hc).1),
      linkid _ (fun c hc => (huv c hc).1),
      tagid "style".toList _ (fun c hc => (huv c hc).1)]
  have hsvg : sanitizeSvgL (u ++ (jsPat ++ v)) = trimJS (u ++ v) := by
    show trimJS
      (replaceAllG (attrAt "xlink:href".toList) " xlink:href=\"#\"".toList
        (replaceAllG (attrAt "href".toList) " href=\"#\"".toList
          (replaceAllG (tagAt "foreignobject".toList) []
            (replaceAllG handlerAt []
              (replaceAllG jsAt []
                (replaceAllG (tagAt "script".toList) [] (u ++ (jsPat ++ v)))))))) =
      trimJS (u ++ v)
    rw [escript, hjs, ehandler,
      tagid "foreignobject".toList _ (fun c hc => (huv c hc).1),
      attrid "href".toList _ _ (fun c hc => (huv c hc).2),
      attrid "xlink:href".toList _ _ (fun c hc => (huv c hc).2)]
  have hc3 : containsCI jsPat (trimJS (u ++ v)) = false := by
    cases hcc : containsCI jsPat (trimJS (u ++ v)) with
    | false => rfl
    | true =>
      rw [containsCI_of_part jsPat _ _ (trimJS_part (u ++ v)) hcc] at hnojs
      exact absurd hnojs (by simp)
  have hc4 : anyMatch (tagAt "script".toList) (trimJS (u ++ v)) = false :=
    anyMatch_tagAt_false _ _ (fun c hc => (huv c (mem_trimJS hc)).1)
  have hc5 : anyMatch handlerAt (trimJS (u ++ v)) = false :=
    anyMatch_handlerAt_false _ (fun c hc => (huv c (mem_trimJS hc)).2)
  exact ⟨hhtml, hsvg, hhtml ▸ hc3, hhtml ▸ hc4, hhtml ▸ hc5⟩

/-- C1, witness for the amended theorem at `u = "ab "`, `v = " cd"`. -/
theorem c1_sanitize_spliceFree_witness :
    sanitizeHtmlL ("ab ".toList ++ (jsPat ++ " cd".toList)) =
      trimJS ("ab ".toList ++ " cd".toList) ∧
    sanitizeSvgL ("ab ".toList ++ (jsPat ++ " cd".toList)) =
      trimJS ("ab ".toList ++ " cd".toList) ∧
    containsCI jsPat (sanitizeHtmlL ("ab ".toList ++ (jsPat ++ " cd".toList))) = false ∧
    anyMatch (tagAt "script".toList)
      (sanitizeHtmlL ("ab ".toList ++ (jsPat ++ " cd".toList))) = false ∧
    anyMatch handlerAt (sanitizeHtmlL ("ab ".toList ++ (jsPat ++ " cd".toList))) = false :=
  c1_sanitize_spliceFree "ab ".toList " cd".toList (by decide) (by decide)
    (by decide) (by decide)

/-! ## Claim C2 -/

/-- C2, counterexample: the input does contain an `href` attribute whose
quoted value targets `javascript:` (the `href`-rewrite matcher fires on
it), but `sanitizeSvg` does not rewrite it to `href="#"`: the earlier
global `javascript:`-removal pass already stripped the scheme from the
value, so the output is `<a href="x">` and contains no `#` at all. -/
theorem c2_plain_href_counterexample :
    anyMatch (attrAt "href".toList) "<a href=\"javascript:x\">".toList = true ∧
    sanitizeSvgL "<a href=\"javascript:x\">".toList = "<a href=\"x\">".toList ∧
    ("<a href=\"x\">".toList.contains '#') = false :=
  ⟨by decide, by decide, by decide⟩

/-- C2, amended: the `href`/`xlink:href` neutralization to a fragment
reference fires exactly when a `javascript:` target survives the earlier
removal pass — e.g. when that removal splices a new occurrence into the
quoted value — and then the attribute is kept and rewritten to `"#"`;
a plain `javascript:` target instead has the scheme deleted from the
value by the earlier pass and keeps the remainder. -/
theorem c2_href_neutralization_amended :
    sanitizeSvgL "<a href=\"javajavascript:script:1\">".toList =
      "<a href=\"#\">".toList ∧
    sanitizeSvgL "<a xlink:href=\"javajavascript:script:1\">".toList =
      "<a xlink:href=\"#\">".toList ∧
    sanitizeSvgL "<a href=\"javascript:x\">".toList = "<a href=\"x\">".toList :=
  ⟨by decide, by decide, by decide⟩

/-! ## Claim C7 -/

/-- The deny-list test of `sanitizeUrl`: `/^(javascript|data|vbscript):/i`. -/
def badScheme (t : Chars) : Bool :=
  startsCI "javascript:".toList t || startsCI "data:".toList t ||
  startsCI "vbscript:".toList t

/-- The allow-list test of `sanitizeUrl`:
`/^(https?:\/\/|mailto:|\/|\.\/|\.\.\/)/i`. -/
def goodStart (t : Chars) : Bool :=
  startsCI "http://".toList t || startsCI "https://".toList t ||
  startsCI "mailto:".toList t || startsCI "/".toList t ||
  startsCI "./".toList t || startsCI "../".toList t

/-- C7, counterexample: `HTTP://example.com` begins (case-sensitively)
with none of `http://`, `https://`, `mailto:`, `/`, `./`, `../` and has
none of the denied schemes, so under the claim it is "every other value"
and must map to `""`; the code's allow-list regex carries the `i` flag
and returns it unchanged. -/
theorem c7_sanitizeUrl_case_counterexample :
    sanitizeUrlStr "HTTP://example.com" = "HTTP://example.com" ∧
    ("HTTP://example.com" : String) ≠ "" ∧
    ("http://".toList.isPrefixOf "HTTP://example.com".toList) = false ∧
    ("https://".toList.isPrefixOf "HTTP://example.com".toList) = false ∧
    ("mailto:".toList.isPrefixOf "HTTP://example.com".toList) = false ∧
    ("/".toList.isPrefixOf "HTTP://example.com".toList) = false ∧
    ("./".toList.isPrefixOf "HTTP://example.com".toList) = false ∧
    ("../".toList.isPrefixOf "HTTP://example.com".toList) = false ∧
    badScheme (trimJS "HTTP://example.com".toList) = false :=
  ⟨by decide, by decide, by decide, by decide, by decide, by decide, by decide,
   by decide, by decide⟩

/-- C7, amended: `sanitizeUrl` trims, returns `""` for the three denied
schemes in any letter case, returns the trimmed input unchanged for
values beginning **case-insensitively** with `http://`, `https://`,
`mailto:`, `/`, `./` or `../`, and `""` for everything else; in
particular the five sample URLs are returned unchanged. -/
theorem c7_sanitizeUrl_amended :
    (∀ s : String,
      (badScheme (trimJS s.toList) = true → sanitizeUrlStr s = "") ∧
      (badScheme (trimJS s.toList) = false → goodStart (trimJS s.toList) = true →
        sanitizeUrlStr s = (trimJS s.toList).asString) ∧
      (badScheme (trimJS s.toList) = false → goodStart (trimJS s.toList) = false →
        sanitizeUrlStr s = "")) ∧
    sanitizeUrlStr "https://example.com" = "https://example.com" ∧
    sanitizeUrlStr "/a/b" = "/a/b" ∧
    sanitizeUrlStr "./a" = "./a" ∧
    sanitizeUrlStr "../a" = "../a" ∧
    sanitizeUrlStr "mailto:x@y.com" = "mailto:x@y.com" := by
  refine ⟨fun s => ⟨?_, ?_, ?_⟩, by decide, by decide, by decide, by decide, by decide⟩
  · intro hbad
    rw [sanitizeUrlStr, if_pos]
    simp only [badScheme, Bool.or_eq_true] at hbad
    tauto
  · intro hbad hgood
    rw [sanitizeUrlStr, if_neg, if_pos]
    · simp only [goodStart, Bool.or_eq_true] at hgood
      tauto
    · simp only [badScheme, Bool.or_eq_false_iff] at hbad
      rintro (h | h | h) <;> simp_all
  · intro hbad hgood
    rw [sanitizeUrlStr, if_neg, if_neg]
    · simp only [goodStart, Bool.or_eq_false_iff] at hgood
      rintro (h | h | h | h | h | h) <;> simp_all
    · simp only [badScheme, Bool.or_eq_false_iff] at hbad
      rintro (h | h | h) <;> simp_all

/-- C7, witness: the amended characterization applied at concrete URLs,
discharging each branch hypothesis. -/
theorem c7_sanitizeUrl_amended_witness :
    sanitizeUrlStr "  DATA:text/html" = "" ∧
    sanitizeUrlStr " HTTPS://ok " = "HTTPS://ok" ∧
    sanitizeUrlStr "ftp://x" = "" :=
  ⟨(c7_sanitizeUrl_amended.1 "  DATA:text/html").1 (by decide),
   (c7_sanitizeUrl_amended.1 " HTTPS://ok ").2.1 (by decide) (by decide),
   (c7_sanitizeUrl_amended.1 "ftp://x").2.2 (by decide) (by decide)⟩

/-! ## Claim C8 -/

theorem replaceAllG_length_le (m : Chars → Option Nat) (l : Chars) :
    (replaceAllG m [] l).length ≤ l.length :=
  repGo_length_le m l.length l

theorem mem_replaceAllG {m : Chars → Option Nat} {l : Chars} {x : Char}
    (h : x ∈ replaceAllG m [] l) : x ∈ l :=
  mem_repGo m l.length l x h

theorem sanitizeHtmlL_length_le (l : Chars) : (sanitizeHtmlL l).length ≤ l.length := by
  rw [sanitizeHtmlL]
  refine le_trans (trimJS_length_le _) ?_
  refine le_trans (replaceAllG_length_le _ _) ?_
  refine le_trans (replaceAllG_length_le _ _) ?_
  refine le_trans (replaceAllG_length_le _ _) ?_
  refine le_trans (replaceAllG_length_le _ _) ?_
  refine le_trans (replaceAllG_length_le _ _) ?_
  refine le_trans (replaceAllG_length_le _ _) ?_
  refine le_trans (replaceAllG_length_le _ _) ?_
  exact replaceAllG_length_le _ _

theorem mem_sanitizeHtmlL {l : Chars} {x : Char} (h : x ∈ sanitizeHtmlL l) : x ∈ l := by
  rw [sanitizeHtmlL] at h
  exact mem_replaceAllG (mem_replaceAllG (mem_replaceAllG (mem_replaceAllG
    (mem_replaceAllG (mem_replaceAllG (mem_replaceAllG (mem_replaceAllG
      (mem_trimJS h))))))))

/-- C8, counterexample: carriage return (code 13) is not in the stripped
set `{0–8, 11, 12, 14–31, 127}`, so `sanitizeText "a\rb" 10` returns
`a\rb` unchanged — the output contains a control character that is
neither newline nor tab, refuting the claim's final clause. -/
theorem c8_carriage_return_counterexample :
    sanitizeTextL "a\rb".toList 10 = "a\rb".toList ∧
    ((sanitizeTextL "a\rb".toList 10).any fun c =>
      (decide (c.toNat < 32) || decide (c.toNat = 127)) &&
      !(decide (c.toNat = 9) || decide (c.toNat = 10))) = true :=
  ⟨by decide, by decide⟩

/-- C8, amended: `sanitizeText` strips the control characters with codes
0–8, 11, 12, 14–31 and 127 (preserving newline, tab — and carriage
return, which is outside the stripped set), truncates to `B` characters,
then applies `sanitizeHtml`; the output length is at most `min L B`, the
output contains no control character outside newline/tab/carriage
return, and non-string input yields the empty string. -/
theorem c8_sanitizeText_amended (s : String) (B : Nat) :
    sanitizeTextL s.toList B =
      sanitizeHtmlL ((s.toList.filter (fun c => !isStrippedCtrl c)).take B) ∧
    (sanitizeTextL s.toList B).length ≤ min s.toList.length B ∧
    ((sanitizeTextL s.toList B).all fun c =>
      !(decide (c.toNat < 32) || decide (c.toNat = 127)) ||
      (decide (c.toNat = 9) || decide (c.toNat = 10) || decide (c.toNat = 13))) = true ∧
    (∀ v : JsVal, (∀ t, v ≠ .str t) → sanitizeTextJ v B = "") := by
  refine ⟨rfl, ?_, ?_, ?_⟩
  · have h1 := sanitizeHtmlL_length_le ((s.toList.filter (fun c => !isStrippedCtrl c)).take B)
    have h2 : ((s.toList.filter (fun c => !isStrippedCtrl c)).take B).length =
        min B (s.toList.filter (fun c => !isStrippedCtrl c)).length :=
      List.length_take ..
    have h3 : (s.toList.filter (fun c => !isStrippedCtrl c)).length ≤ s.toList.length :=
      List.length_filter_le ..
    rw [sanitizeTextL]
    omega
  · rw [List.all_eq_true]
    intro c hc
    have hmem : c ∈ (s.toList.filter (fun c' => !isStrippedCtrl c')).take B :=
      mem_sanitizeHtmlL hc
    have hfil : c ∈ s.toList.filter (fun c' => !isStrippedCtrl c') :=
      List.mem_of_mem_take hmem
    have hok : isStrippedCtrl c = false := by
      have := (List.mem_filter.mp hfil).2
      simpa using this
    simp only [isStrippedCtrl, decide_eq_false_iff_not, not_or, not_and,
      not_le, decide_eq_true_eq] at hok
    simp only [Bool.or_eq_true, Bool.not_eq_true', Bool.or_eq_false_iff,
      decide_eq_false_iff_not, not_lt, decide_eq_true_eq]
    omega
  · intro v hv
    cases v with
    | str t => exact absurd rfl (hv t)
    | undefined => rfl
    | jsNull => rfl
    | bool b => rfl
    | num q => rfl
    | arr l => rfl
    | obj f => rfl

/-- C8, witness: the amended theorem applied at `s = "xy"`, `B = 7`,
discharging the non-string hypothesis at `null`. -/
theorem c8_sanitizeText_amended_witness :
    sanitizeTextJ JsVal.jsNull 7 = "" :=
  (c8_sanitizeText_amended "xy" 7).2.2.2 JsVal.jsNull (fun t h => by cases h)

/-! ## Claim C5 -/

/-- Helper: full characterization of when `validateImportedDrawing`
returns `true`. -/
theorem validate_true_iff (d : JsVal) :
    validateImportedDrawing d = true ↔
      (jsTruthy d = true ∧ jsTypeof d = "object" ∧
       (getField d "elements").isArr = true ∧
       jsTypeof (getField d "appState") = "object" ∧
       arrLen (getField d "elements") ≤ 10000 ∧
       ∃ r, sanitizeDrawingData d = .ok r ∧
         r.elements.length = arrLen (getField d "elements")) := by
  rw [validateImportedDrawing, validateCore]
  split_ifs with h1 h2 h3 h4
  · constructor
    · intro h; exact absurd h (by simp)
    · rintro ⟨ht, hobj, -⟩
      rcases h1 with h | h
      · rw [ht] at h; simp at h
      · exact absurd hobj h
  · constructor
    · intro h; exact absurd h (by simp)
    · rintro ⟨-, -, harr, -⟩
      rw [harr] at h2; simp at h2
  · constructor
    · intro h; exact absurd h (by simp)
    · rintro ⟨-, -, -, happ, -⟩
      exact absurd happ h3
  · constructor
    · intro h; exact absurd h (by simp)
    · rintro ⟨-, -, -, -, hlen, -⟩
      omega
  · cases hs : sanitizeDrawingData d with
    | error e =>
      constructor
      · intro h; simp at h
      · rintro ⟨-, -, -, -, -, r, hr, -⟩
        cases hr
    | ok r =>
      by_cases hlen : r.elements.length ≠ arrLen (getField d "elements")
      · constructor
        · intro h
          simp only [if_pos hlen] at h
          simp at h
        · rintro ⟨-, -, -, -, -, r', hr', hlen'⟩
          injection hr' with hh
          subst hh
          exact absurd hlen' hlen
      · constructor
        · intro _
          push_neg at hlen
          rw [not_or] at h1
          refine ⟨?_, by tauto, ?_, by tauto, by omega, r, rfl, hlen⟩
          · have := h1.1
            simpa using this
          · have h2' := h2
            simpa using h2'
        · intro _
          simp only [if_neg hlen]

/-- A minimal schema-valid element (all required fields, nothing else). -/
def minimalElement : JsVal :=
  .obj [("id", .str "a"), ("type", .str "rectangle"), ("x", .num 0),
        ("y", .num 0), ("width", .num 0), ("height", .num 0),
        ("angle", .num 0), ("version", .num 0), ("versionNonce", .num 0)]

/-- C5: `validateImportedDrawing` is a total boolean — the `try`/`catch`
turns every raised error into `false` — and it returns `true` exactly
when the document is a truthy object whose `elements` is an array of at
most 10,000 entries, whose `appState` has `typeof` "object",
`sanitizeDrawingData` succeeds, and the sanitized element count matches;
in particular a document of 10,001 minimal valid elements yields
`false`. -/
theorem c5_validateImportedDrawing_characterization :
    (∀ d : JsVal, validateImportedDrawing d = true ↔
      (jsTruthy d = true ∧ jsTypeof d = "object" ∧
       (getField d "elements").isArr = true ∧
       jsTypeof (getField d "appState") = "object" ∧
       arrLen (getField d "elements") ≤ 10000 ∧
       ∃ r, sanitizeDrawingData d = .ok r ∧
         r.elements.length = arrLen (getField d "elements"))) ∧
    validateImportedDrawing
      (.obj [("elements", .arr (List.replicate 10001 minimalElement)),
             ("appState", .obj [])]) = false := by
  refine ⟨validate_true_iff, ?_⟩
  cases hv : validateImportedDrawing
      (.obj [("elements", .arr (List.replicate 10001 minimalElement)),
             ("appState", .obj [])]) with
  | false => rfl
  | true =>
    obtain ⟨-, -, -, -, hlen, -⟩ := (validate_true_iff _).mp hv
    have harr : getField
        (.obj [("elements", JsVal.arr (List.replicate 10001 minimalElement)),
               ("appState", JsVal.obj [])]) "elements" =
        .arr (List.replicate 10001 minimalElement) := rfl
    rw [harr] at hlen
    have : arrLen (JsVal.arr (List.replicate 10001 minimalElement)) = 10001 := by
      show (List.replicate 10001 minimalElement).length = 10001
      exact List.length_replicate ..
    omega

/-! ## Claim C6 -/

/-- Helper: when the single input field's key is none of the shape's
keys and every declared field tolerates absence (`undefined ↦ ok
undefined`, true of every `appStateSchema` field, which are all
optional), the declared-field walk produces the empty record. -/
theorem parseFields_unknown_single (shape : List (String × ZParser)) (k : String)
    (v : JsVal) (hk : ∀ pr ∈ shape, pr.1 ≠ k)
    (hopt : ∀ pr ∈ shape, pr.2 .undefined = .ok .undefined) :
    parseFields shape [(k, v)] = .ok [] := by
  induction shape with
  | nil => rfl
  | cons pr rest ih =>
    obtain ⟨k', p⟩ := pr
    have hne : k' ≠ k := hk _ (List.mem_cons_self ..)
    have hlk : lookupF [(k, v)] k' = .undefined := by
      rw [lookupF, if_neg (fun h => hne h.symm)]
      rfl
    have hp : p JsVal.undefined = Except.ok JsVal.undefined := hopt _ (List.mem_cons_self ..)
    rw [parseFields, hlk, hp,
      ih (fun q hq => hk q (List.mem_cons_of_mem _ hq))
         (fun q hq => hopt q (List.mem_cons_of_mem _ hq))]
    have hkey : hasKeyF [(k, v)] k' = false := by
      have hne' : ¬ k = k' := fun h => hne h.symm
      simp [hasKeyF, hne']
    simp [JsVal.isUndefined, hkey]

/-- Helper: every declared `appStateSchema` field accepts absence. -/
theorem appStateShape_optional : ∀ pr ∈ appStateShape, pr.2 .undefined = .ok .undefined := by
  intro pr hpr
  simp only [appStateShape, List.mem_cons, List.not_mem_nil, or_false] at hpr
  rcases hpr with rfl | rfl | rfl | rfl | rfl | rfl | rfl | rfl | rfl | rfl | rfl |
    rfl | rfl | rfl | rfl | rfl | rfl | rfl | rfl | rfl | rfl | rfl | rfl <;> rfl

/-- Helper: the catchall verdict on a single unknown field. -/
theorem parseAppState_unknown_single (k : String) (v : JsVal)
    (hk : ∀ pr ∈ appStateShape, pr.1 ≠ k) :
    parseAppState (.obj [(k, v)]) =
      if appCatch v then .ok (.obj [(k, v)]) else .error () := by
  have hcont : ((appStateShape.map Prod.fst).contains k) = false := by
    by_contra h
    rw [Bool.not_eq_false] at h
    obtain ⟨x, hx, hbeq⟩ := List.contains_iff_exists_mem_beq.mp h
    obtain ⟨pr, hpr, rfl⟩ := List.mem_map.mp hx
    have heq : k = pr.1 := by simpa using hbeq
    exact hk pr hpr heq.symm
  have hextra : extraFields appStateShape [(k, v)] = [(k, v)] := by
    simp only [extraFields, List.filter_cons, List.filter_nil, hcont,
      Bool.not_false, if_true]
  rw [parseAppState, parseObj,
    parseFields_unknown_single _ _ _ hk appStateShape_optional]
  rw [hextra]
  simp only [List.all_cons, List.all_nil, Bool.and_true, List.nil_append]

/-- C6: an appState field not declared in the schema is validated by the
catchall refinement: a string value is accepted iff its `sanitizeText`
image is non-empty (sanitization as a validation predicate — the value
itself is kept untransformed), an unsanitizable string makes the whole
`sanitizeDrawingData` call raise, and any non-string value is
accepted. -/
theorem c6_appState_unknown_field (k : String) (v : JsVal)
    (hk : ∀ pr ∈ appStateShape, pr.1 ≠ k) :
    (∀ s : String, v = .str s → sanitizeTextStr s 1000 = "" →
      parseAppState (.obj [(k, v)]) = .error () ∧
      sanitizeDrawingData
        (.obj [("elements", .arr []), ("appState", .obj [(k, v)])]) = .error ()) ∧
    (∀ s : String, v = .str s → sanitizeTextStr s 1000 ≠ "" →
      parseAppState (.obj [(k, v)]) = .ok (.obj [(k, v)])) ∧
    ((∀ s : String, v ≠ .str s) →
      parseAppState (.obj [(k, v)]) = .ok (.obj [(k, v)]) ∧
      ∃ r, sanitizeDrawingData
          (.obj [("elements", .arr []), ("appState", .obj [(k, v)])]) = .ok r ∧
        r.appState = .obj [(k, v)]) := by
  have hmain := parseAppState_unknown_single k v hk
  have happ : getField
      (.obj [("elements", JsVal.arr []), ("appState", JsVal.obj [(k, v)])])
      "appState" = .obj [(k, v)] := rfl
  refine ⟨?_, ?_, ?_⟩
  · rintro s rfl hempty
    have hcatch : appCatch (.str s) = false := by
      simp [appCatch, hempty]
    rw [hmain, if_neg (by simp [hcatch])]
    refine ⟨rfl, ?_⟩
    rw [sanitizeDrawingData]
    simp only [happ]
    rw [hmain, if_neg (by simp [hcatch])]
    rfl
  · rintro s rfl hne
    have hcatch : appCatch (.str s) = true := by
      simp [appCatch, hne]
    rw [hmain, if_pos (by simp [hcatch])]
  · intro hns
    have hcatch : appCatch v = true := by
      cases v with
      | str s => exact absurd rfl (hns s)
      | undefined => rfl
      | jsNull => rfl
      | bool b => rfl
      | num q => rfl
      | arr l => rfl
      | obj f => rfl
    constructor
    · rw [hmain, if_pos (by simp [hcatch])]
    · refine ⟨⟨[], .obj [(k, v)], .undefined, .undefined⟩, ?_, rfl⟩
      rw [sanitizeDrawingData]
      simp only [happ]
      rw [hmain, if_pos (by simp [hcatch])]
      rfl

/-- C6, witness: at the unknown key `evil` — a fully-stripped script
payload is rejected (document-level too), a string with a survivor is
accepted, and a numeric value is accepted. -/
theorem c6_appState_unknown_field_witness :
    parseAppState (.obj [("evil", .str "<script>x</script>")]) = .error () ∧
    sanitizeDrawingData
      (.obj [("elements", .arr []),
             ("appState", .obj [("evil", .str "<script>x</script>")])]) = .error () ∧
    parseAppState (.obj [("evil", .str "<script>x</script>hello")]) =
      .ok (.obj [("evil", .str "<script>x</script>hello")]) ∧
    parseAppState (.obj [("evil", .num 5)]) = .ok (.obj [("evil", .num 5)]) := by
  have hk : ∀ pr ∈ appStateShape, pr.1 ≠ "evil" := by
    intro pr hpr
    simp only [appStateShape, List.mem_cons, List.not_mem_nil, or_false] at hpr
    rcases hpr with rfl | rfl | rfl | rfl | rfl | rfl | rfl | rfl | rfl | rfl | rfl |
      rfl | rfl | rfl | rfl | rfl | rfl | rfl | rfl | rfl | rfl | rfl | rfl <;> decide
  have h1 := (c6_appState_unknown_field "evil" (.str "<script>x</script>") hk).1
    "<script>x</script>" rfl (by decide)
  have h2 := (c6_appState_unknown_field "evil" (.str "<script>x</script>hello") hk).2.1
    "<script>x</script>hello" rfl (by decide)
  have h3 := (c6_appState_unknown_field "evil" (.num 5) hk).2.2
    (fun s h => by cases h)
  exact ⟨h1.1, h1.2, h2, h3.1⟩

/-! ## Claim C10 -/

/-- C10: the declared string-typed appState fields are validated only as
strings and are never routed through a sanitizer: for every string `s`,
`appStateSchema` returns `viewBackgroundColor ↦ s` character-for-character
unchanged; in particular, for a value that is literally a script block,
`sanitizeDrawingData` succeeds, returns it unchanged, and
`validateImportedDrawing` accepts the document. -/
theorem c10_declared_appState_not_sanitized :
    (∀ s : String,
      parseAppState (.obj [("viewBackgroundColor", .str s)]) =
        .ok (.obj [("viewBackgroundColor", .str s)])) ∧
    anyMatch (tagAt "script".toList) "<script>alert(1)</script>".toList = true ∧
    (∃ r, sanitizeDrawingData
        (.obj [("elements", .arr []),
               ("appState", .obj [("viewBackgroundColor",
                  .str "<script>alert(1)</script>")])]) = .ok r ∧
      r.appState = .obj [("viewBackgroundColor", .str "<script>alert(1)</script>")]) ∧
    validateImportedDrawing
      (.obj [("elements", .arr []),
             ("appState", .obj [("viewBackgroundColor",
                .str "<script>alert(1)</script>")])]) = true := by
  refine ⟨fun s => rfl, by decide, ⟨⟨[],
    .obj [("viewBackgroundColor", .str "<script>alert(1)</script>")],
    .undefined, .undefined⟩, rfl, rfl⟩, by decide⟩

/-! ## Claim C3 -/

/-- C3: after a successful `initializeAuth`, `verifyCredentials` returns
exactly `usernameValid && passwordValid`, where `usernameValid` is the
byte-wise equality of the two usernames padded to a common length of at
least 256 conjoined with exact length equality; the bcrypt comparison is
invoked exactly once on every call (the invocation count in the result),
regardless of the username check's outcome; and the username check is
equivalent to plain equality with the configured username. -/
theorem c3_verifyCredentials_structure (hashFn : String → String)
    (cfg : AuthConfig) (hp admin : String)
    (_hinit : initializeAuth hashFn cfg = .ok hp)
    (cmp : String → String → Bool) (username password : String) :
    verifyCredentials cmp (some hp) admin username password =
      .ok ((decide (writeBuf username (max (max username.length admin.length) 256) =
                    writeBuf admin (max (max username.length admin.length) 256)) &&
            decide (username.length = admin.length)) && cmp password hp, 1) ∧
    256 ≤ max (max username.length admin.length) 256 ∧
    ((writeBuf username (max (max username.length admin.length) 256) =
        writeBuf admin (max (max username.length admin.length) 256)) ∧
      username.length = admin.length ↔ username = admin) := by
  refine ⟨rfl, le_max_right .., ?_⟩
  constructor
  · rintro ⟨hbuf, hlen⟩
    have hlu : username.data.length = username.length := rfl
    have hla : admin.data.length = admin.length := rfl
    have htu : username.data.take (max (max username.length admin.length) 256) =
        username.data := List.take_of_length_le (by omega)
    have hta : admin.data.take (max (max username.length admin.length) 256) =
        admin.data := List.take_of_length_le (by omega)
    rw [writeBuf, writeBuf, htu, hta] at hbuf
    have hdata : username.data = admin.data :=
      (List.append_inj hbuf (by omega)).1
    cases username with
    | mk du =>
      cases admin with
      | mk da => exact congrArg String.mk hdata
  · rintro rfl
    exact ⟨rfl, rfl⟩

/-- C3, witness: the structure theorem at a concrete configuration
(init discharged by computation), evaluated at the correct pair. -/
theorem c3_verifyCredentials_witness :
    verifyCredentials (fun p h => p == h) (some "password123") "admin"
      "admin" "password123" = .ok (true, 1) := by
  have h := c3_verifyCredentials_structure (fun pw => pw)
    ⟨some "admin", some "password123"⟩ "password123" "admin" rfl
    (fun p h' => p == h') "admin" "password123"
  rw [h.1]
  rfl

/-! ## Claim C4 -/

/-- C4: the login rate limiter's four branch behaviours — create on
first attempt, reset after the window, increment under the cap, reject
at the cap with `ceil(remaining/1000)` and no increment — and the
5-pass/6th-rejected scenario with a positive retry-after. -/
theorem c4_loginRateLimit_behavior :
    (∀ now, loginRateLimit now none =
      (.allow, some ⟨1, now + LOGIN_RATE_LIMIT_WINDOW⟩)) ∧
    (∀ now a, now > a.resetTime → loginRateLimit now (some a) =
      (.allow, some ⟨1, now + LOGIN_RATE_LIMIT_WINDOW⟩)) ∧
    (∀ now a, now ≤ a.resetTime → a.count < LOGIN_MAX_ATTEMPTS →
      loginRateLimit now (some a) = (.allow, some ⟨a.count + 1, a.resetTime⟩)) ∧
    (∀ now a, now ≤ a.resetTime → a.count ≥ LOGIN_MAX_ATTEMPTS →
      loginRateLimit now (some a) =
        (.rateLimited ((a.resetTime - now + 999) / 1000), some a)) ∧
    (∀ t0 t1 t2 t3 t4 t5 : Nat,
      t1 ≤ t0 + LOGIN_RATE_LIMIT_WINDOW → t2 ≤ t0 + LOGIN_RATE_LIMIT_WINDOW →
      t3 ≤ t0 + LOGIN_RATE_LIMIT_WINDOW → t4 ≤ t0 + LOGIN_RATE_LIMIT_WINDOW →
      t5 < t0 + LOGIN_RATE_LIMIT_WINDOW →
      loginRateLimit t0 none = (.allow, some ⟨1, t0 + LOGIN_RATE_LIMIT_WINDOW⟩) ∧
      loginRateLimit t1 (some ⟨1, t0 + LOGIN_RATE_LIMIT_WINDOW⟩) =
        (.allow, some ⟨2, t0 + LOGIN_RATE_LIMIT_WINDOW⟩) ∧
      loginRateLimit t2 (some ⟨2, t0 + LOGIN_RATE_LIMIT_WINDOW⟩) =
        (.allow, some ⟨3, t0 + LOGIN_RATE_LIMIT_WINDOW⟩) ∧
      loginRateLimit t3 (some ⟨3, t0 + LOGIN_RATE_LIMIT_WINDOW⟩) =
        (.allow, some ⟨4, t0 + LOGIN_RATE_LIMIT_WINDOW⟩) ∧
      loginRateLimit t4 (some ⟨4, t0 + LOGIN_RATE_LIMIT_WINDOW⟩) =
        (.allow, some ⟨5, t0 + LOGIN_RATE_LIMIT_WINDOW⟩) ∧
      ∃ retryAfter, loginRateLimit t5 (some ⟨5, t0 + LOGIN_RATE_LIMIT_WINDOW⟩) =
        (.rateLimited retryAfter, some ⟨5, t0 + LOGIN_RATE_LIMIT_WINDOW⟩) ∧
        1 ≤ retryAfter) := by
  have hnone : ∀ now, loginRateLimit now none =
      (.allow, some ⟨1, now + LOGIN_RATE_LIMIT_WINDOW⟩) := fun _ => rfl
  have hreset : ∀ now a, now > a.resetTime → loginRateLimit now (some a) =
      (.allow, some ⟨1, now + LOGIN_RATE_LIMIT_WINDOW⟩) := by
    intro now a h
    rw [loginRateLimit, if_pos h]
  have hincr : ∀ now a, now ≤ a.resetTime → a.count < LOGIN_MAX_ATTEMPTS →
      loginRateLimit now (some a) = (.allow, some ⟨a.count + 1, a.resetTime⟩) := by
    intro now a h hc
    rw [loginRateLimit, if_neg (by omega), if_neg (by omega)]
  have hrej : ∀ now a, now ≤ a.resetTime → a.count ≥ LOGIN_MAX_ATTEMPTS →
      loginRateLimit now (some a) =
        (.rateLimited ((a.resetTime - now + 999) / 1000), some a) := by
    intro now a h hc
    rw [loginRateLimit, if_neg (by omega), if_pos hc]
  refine ⟨hnone, hreset, hincr, hrej, ?_⟩
  intro t0 t1 t2 t3 t4 t5 h1 h2 h3 h4 h5
  refine ⟨hnone t0,
    hincr t1 ⟨1, t0 + LOGIN_RATE_LIMIT_WINDOW⟩ h1 (by show (1:Nat) < LOGIN_MAX_ATTEMPTS; decide),
    hincr t2 ⟨2, t0 + LOGIN_RATE_LIMIT_WINDOW⟩ h2 (by show (2:Nat) < LOGIN_MAX_ATTEMPTS; decide),
    hincr t3 ⟨3, t0 + LOGIN_RATE_LIMIT_WINDOW⟩ h3 (by show (3:Nat) < LOGIN_MAX_ATTEMPTS; decide),
    hincr t4 ⟨4, t0 + LOGIN_RATE_LIMIT_WINDOW⟩ h4 (by show (4:Nat) < LOGIN_MAX_ATTEMPTS; decide),
    (t0 + LOGIN_RATE_LIMIT_WINDOW - t5 + 999) / 1000,
    hrej t5 ⟨5, t0 + LOGIN_RATE_LIMIT_WINDOW⟩
      (by show t5 ≤ t0 + LOGIN_RATE_LIMIT_WINDOW; omega)
      (by show (5:Nat) ≥ LOGIN_MAX_ATTEMPTS; decide),
    ?_⟩
  rw [Nat.le_div_iff_mul_le (by norm_num)]
  omega

/-- C4, witness: the branch lemmas applied at concrete times — the sixth
attempt two milliseconds into the window is rejected with the ceiling
retry-after and an unchanged counter. -/
theorem c4_loginRateLimit_witness :
    loginRateLimit 2 (some ⟨5, 900000⟩) =
      (.rateLimited ((900000 - 2 + 999) / 1000), some ⟨5, 900000⟩) :=
  c4_loginRateLimit_behavior.2.2.2.1 2 ⟨5, 900000⟩
    (by show (2:Nat) ≤ 900000; decide) (by show (5:Nat) ≥ LOGIN_MAX_ATTEMPTS; decide)

/-! ## Claim C9 -/

theorem storeGet_set (st : SessionStore) (k : String) (v : Session) :
    storeGet (storeSet st k v) k = some v := by
  induction st with
  | nil => simp [storeSet, storeGet]
  | cons kv rest ih =>
    obtain ⟨k', v'⟩ := kv
    by_cases h : k' = k
    · subst h
      simp [storeSet, storeGet]
    · simp only [storeSet, if_neg h]
      simpa [storeGet, h] using ih

theorem storeGet_delete (st : SessionStore) (k : String) :
    storeGet (storeDelete st k) k = none := by
  induction st with
  | nil => rfl
  | cons kv rest ih =>
    obtain ⟨k', v'⟩ := kv
    by_cases h : k' = k
    · subst h
      simpa [storeDelete, List.filter_cons] using ih
    · have hkeep : storeDelete ((k', v') :: rest) k = (k', v') :: storeDelete rest k := by
        simp [storeDelete, List.filter_cons, h]
      rw [hkeep]
      simpa [storeGet, h] using ih

/-- Helper: `getSession` when the token is present. -/
theorem getSession_found {st : SessionStore} {k : String} {s : Session} (now : Nat)
    (h : storeGet st k = some s) :
    getSession k now st =
      if now > s.expiresAt then (none, storeDelete st k) else (some s, st) := by
  rw [getSession, h]

/-- C9: a created session expires exactly 24 hours after creation and is
immediately retrievable; a lookup past its expiry returns absence and
removes the entry; a lookup of an unknown token returns absence. -/
theorem c9_session_lifecycle (tok : String) (now : Nat) (st : SessionStore) :
    (createSession tok now st).1.expiresAt - (createSession tok now st).1.createdAt =
      24 * 60 * 60 * 1000 ∧
    getSession tok now (createSession tok now st).2 =
      (some (createSession tok now st).1, (createSession tok now st).2) ∧
    (∀ now', now' > (createSession tok now st).1.expiresAt →
      getSession tok now' (createSession tok now st).2 =
        (none, storeDelete (createSession tok now st).2 tok) ∧
      storeGet (storeDelete (createSession tok now st).2 tok) tok = none) ∧
    (∀ t, storeGet st t = none → getSession t now st = (none, st)) := by
  have hget : storeGet (createSession tok now st).2 tok =
      some (createSession tok now st).1 := storeGet_set st tok _
  refine ⟨?_, ?_, ?_, ?_⟩
  · show now + SESSION_EXPIRY_MS - now = 24 * 60 * 60 * 1000
    rw [SESSION_EXPIRY_MS]
    omega
  · rw [getSession_found now hget, if_neg]
    show ¬ now > now + SESSION_EXPIRY_MS
    omega
  · intro now' hlate
    refine ⟨?_, storeGet_delete _ _⟩
    rw [getSession_found now' hget, if_pos hlate]
  · intro t habsent
    rw [getSession, habsent]

/-- C9, witness: the lifecycle theorem at a concrete token and store,
with the post-expiry lookup one millisecond past 24 hours. -/
theorem c9_session_lifecycle_witness :
    getSession "t" (24 * 60 * 60 * 1000 + 1) (createSession "t" 0 []).2 =
      (none, storeDelete (createSession "t" 0 []).2 "t") ∧
    storeGet (storeDelete (createSession "t" 0 []).2 "t") "t" = none ∧
    getSession "x" 0 [] = (none, []) := by
  have h := c9_session_lifecycle "t" 0 []
  have h3 := h.2.2.1 (24 * 60 * 60 * 1000 + 1) (by decide)
  exact ⟨h3.1, h3.2, h.2.2.2 "x" rfl⟩

end ExcaliDash

